import Mathlib

/-!
Shallow embedding of the rCore chapter-3 task-scheduling core
(`os/src/task/mod.rs`, `os/src/task/task.rs`, `os/src/syscall/process.rs`).

The task manager owns a fixed-capacity table of task control blocks and the
index of the currently running task.  The scheduling operations
(`run_first_task`, `mark_current_suspended`, `mark_current_exited`,
`find_next_task`, `run_next_task`, the compound `suspend_current_and_run_next`
and `exit_current_and_run_next`), the per-task bookkeeping (`syscall_count`,
`first_time`) and the accessors are translated directly from the Rust source.

Conventions of the embedding:
* `MAX_APP_NUM` and `MAX_SYSCALL_NUM` are configuration constants provided by
  the environment (`os/src/config.rs` is not part of the sources); they appear
  as parameters `maxAppNum` / `maxSyscallNum` of the initial state.
* The timer (`get_time_ms` / `get_time_us` from `os/src/timer.rs`, also
  external) is modelled by passing the current reading `now` to every
  operation that consults it.
* A Rust `panic!` (the `run_next_task` halt, the `unwrap` inside
  `get_current_running_time`) is modelled by returning `none`; `some` is the
  normal return.
* The opaque saved-register context `TaskContext` is modelled as an abstract
  `Nat` value `task_cx`; the initial value of slot `i` is `initAppCx i`
  (the external `init_app_cx`/`goto_restore` composition).  The low-level
  `__switch` primitive only touches the saved register snapshots, which the
  spec treats as an opaque external collaborator, so it does not change the
  task table in this model.
-/

/-- Task lifecycle status, from `os/src/task/task.rs`. -/
inductive TaskStatus where
  | UnInit
  | Ready
  | Running
  | Exited
deriving DecidableEq, Repr, Inhabited

/-- Task control block, from `os/src/task/task.rs`.  `syscall_times` is the
per-syscall-id counter array (`[u32; MAX_SYSCALL_NUM]`), `first_time` the
optional first-scheduled timestamp in milliseconds. -/
structure TaskControlBlock where
  task_status : TaskStatus
  task_cx : Nat
  syscall_times : List Nat
  first_time : Option Nat
deriving DecidableEq, Repr

instance : Inhabited TaskControlBlock :=
  ⟨{ task_status := TaskStatus.UnInit, task_cx := 0, syscall_times := [], first_time := none }⟩

/-- Inner mutable part of the task manager (`TaskManagerInner`): the task
table and the index of the current task. -/
structure TaskManagerInner where
  tasks : List TaskControlBlock
  current_task : Nat
deriving DecidableEq, Repr

/-- The task manager: immutable `num_app` plus the inner state. -/
structure TaskManager where
  num_app : Nat
  inner : TaskManagerInner
deriving DecidableEq, Repr

instance : Inhabited TaskManager :=
  ⟨{ num_app := 0, inner := { tasks := [], current_task := 0 } }⟩

/-- Read table slot `i` (Rust `inner.tasks[i]`; all uses in the source are in
bounds, out-of-bounds reads return the default block). -/
def getTask (tm : TaskManager) (i : Nat) : TaskControlBlock :=
  tm.inner.tasks.getD i default

/-- Write table slot `i` (Rust `inner.tasks[i] = ...`). -/
def setTask (tm : TaskManager) (i : Nat) (t : TaskControlBlock) : TaskManager :=
  { tm with inner := { tm.inner with tasks := tm.inner.tasks.set i t } }

/-- The task control block as first built in the `lazy_static` initializer:
`UnInit` status, zeroed context, zeroed syscall counters, no first-scheduled
time. -/
def initialTCB (maxSyscallNum : Nat) : TaskControlBlock :=
  { task_status := TaskStatus.UnInit
    task_cx := 0
    syscall_times := List.replicate maxSyscallNum 0
    first_time := none }

/-- Construction of `TASK_MANAGER`: every one of the `maxAppNum` slots is
built as `initialTCB` and then, in the initialization loop, given its initial
context `initAppCx i` and status `Ready`; `current_task` starts at 0 and
`num_app` is the loader-provided application count. -/
def taskManagerInit (maxAppNum maxSyscallNum numApp : Nat) (initAppCx : Nat → Nat) :
    TaskManager :=
  { num_app := numApp
    inner :=
      { tasks := (List.range maxAppNum).map (fun i =>
          { initialTCB maxSyscallNum with
              task_cx := initAppCx i
              task_status := TaskStatus.Ready })
        current_task := 0 } }

/-- Modulus of the `u32` counters in `syscall_times`: `2 ^ 32`. -/
def u32Mod : Nat := 4294967296

/-- Method `TaskManager::syscall_count`: increment the current task's counter
for `syscall_id`.  The counters are `u32` in the source, so the increment
wraps modulo `2 ^ 32` (the release-build semantics of Rust overflow; a
checked build traps at the same point instead of delivering the wrapped
value). -/
def syscall_count (tm : TaskManager) (syscall_id : Nat) : TaskManager :=
  let current := tm.inner.current_task
  let t := getTask tm current
  setTask tm current
    { t with syscall_times :=
        t.syscall_times.set syscall_id ((t.syscall_times.getD syscall_id 0 + 1) % u32Mod) }

/-- Method `TaskManager::run_first_task`: mark task 0 `Running`, record its first
scheduling time, and switch into it. -/
def run_first_task (now : Nat) (tm : TaskManager) : TaskManager :=
  let t0 := getTask tm 0
  setTask tm 0 { t0 with task_status := TaskStatus.Running, first_time := some now }

/-- Method `TaskManager::mark_current_suspended`: set the current task's status to
`Ready`. -/
def mark_current_suspended (tm : TaskManager) : TaskManager :=
  let current := tm.inner.current_task
  setTask tm current { getTask tm current with task_status := TaskStatus.Ready }

/-- Method `TaskManager::mark_current_exited`: set the current task's status to
`Exited`. -/
def mark_current_exited (tm : TaskManager) : TaskManager :=
  let current := tm.inner.current_task
  setTask tm current { getTask tm current with task_status := TaskStatus.Exited }

/-- Method `TaskManager::find_next_task`: scan ids `current+1 .. current+num_app`
(the Rust range `current + 1 .. current + num_app + 1`), each reduced modulo
`num_app`, and return the first whose status is `Ready`. -/
def find_next_task (tm : TaskManager) : Option Nat :=
  let current := tm.inner.current_task
  ((List.range' (current + 1) tm.num_app).map (fun id => id % tm.num_app)).find?
    (fun id => decide ((getTask tm id).task_status = TaskStatus.Ready))

/-- Method `TaskManager::run_next_task`: if `find_next_task` yields `next`, mark it
`Running`, make it current, record its first scheduling time if absent, and
switch to it; otherwise panic with "All applications completed!" (modelled as
`none`, with the table untouched). -/
def run_next_task (now : Nat) (tm : TaskManager) : Option TaskManager :=
  match find_next_task tm with
  | some next =>
      let t := getTask tm next
      let t := { t with
        task_status := TaskStatus.Running
        first_time := if t.first_time.isNone then some now else t.first_time }
      some { num_app := tm.num_app
             inner := { tasks := tm.inner.tasks.set next t, current_task := next } }
  | none => none

/-- Method `TaskManager::get_syscall_times`: copy of the current task's counters. -/
def get_syscall_times (tm : TaskManager) : List Nat :=
  (getTask tm tm.inner.current_task).syscall_times

/-- Method `TaskManager::get_status`: the current task's status. -/
def get_status (tm : TaskManager) : TaskStatus :=
  (getTask tm tm.inner.current_task).task_status

/-- Method `TaskManager::get_current_running_time`:
`get_time_ms() - first_time.unwrap()`; the `unwrap` of an absent timestamp is
a panic, modelled as `none`. -/
def get_current_running_time (now : Nat) (tm : TaskManager) : Option Nat :=
  (getTask tm tm.inner.current_task).first_time.map (fun t => now - t)

/-- Module-level `suspend_current_and_run_next`:
`mark_current_suspended(); run_next_task();`. -/
def suspend_current_and_run_next (now : Nat) (tm : TaskManager) : Option TaskManager :=
  run_next_task now (mark_current_suspended tm)

/-- Module-level `exit_current_and_run_next`:
`mark_current_exited(); run_next_task();`. -/
def exit_current_and_run_next (now : Nat) (tm : TaskManager) : Option TaskManager :=
  run_next_task now (mark_current_exited tm)

/-- The `TimeVal` written by `sys_get_time` (`os/src/syscall/process.rs`). -/
structure TimeVal where
  sec : Nat
  usec : Nat
deriving DecidableEq, Repr

/-- Syscall `sys_get_time`: split the microsecond reading into seconds and residual
microseconds, return 0. -/
def sys_get_time (us : Nat) : TimeVal × Int :=
  ({ sec := us / 1000000, usec := us % 1000000 }, 0)

/-- One observable operation issued against the running manager after boot:
the two compound scheduling calls (each carrying the timer reading the
embedded `run_next_task` would observe), the syscall-counter update, and the
three read-only accessors. -/
inductive Op where
  | suspendAndRunNext : Nat → Op
  | exitAndRunNext : Nat → Op
  | recordSyscall : Nat → Op
  | querySyscallTimes : Op
  | queryStatus : Op
  | queryRunningTime : Nat → Op
deriving DecidableEq, Repr

/-- Effect of one operation on the manager state; `none` models a kernel
panic (no successor state). -/
def step (op : Op) (tm : TaskManager) : Option TaskManager :=
  match op with
  | Op.suspendAndRunNext now => suspend_current_and_run_next now tm
  | Op.exitAndRunNext now => exit_current_and_run_next now tm
  | Op.recordSyscall id => some (syscall_count tm id)
  | Op.querySyscallTimes => some tm
  | Op.queryStatus => some tm
  | Op.queryRunningTime now => (get_current_running_time now tm).map (fun _ => tm)

/-- Run a sequence of operations from a state; `none` as soon as one panics. -/
def execFrom (tm : TaskManager) : List Op → Option TaskManager
  | [] => some tm
  | op :: ops =>
      match step op tm with
      | some tm' => execFrom tm' ops
      | none => none

/-- States reachable from the freshly constructed manager: construction with
the given configuration, then `run_first_task`, then any sequence of
successful operations. -/
def Reachable (maxAppNum maxSyscallNum numApp : Nat) (s : TaskManager) : Prop :=
  ∃ (initAppCx : Nat → Nat) (now0 : Nat) (ops : List Op),
    execFrom (run_first_task now0 (taskManagerInit maxAppNum maxSyscallNum numApp initAppCx))
      ops = some s

/-- Task `i` was observed `Running` in some state along the execution of
`ops` from `tm` (the starting state itself included). -/
def everRunning (tm : TaskManager) (ops : List Op) (i : Nat) : Prop :=
  ∃ (k : Nat) (s : TaskManager),
    execFrom tm (ops.take k) = some s ∧ (getTask s i).task_status = TaskStatus.Running

/-- Iterate `k` consecutive `suspend_current_and_run_next` calls (the `yield` loop of
the round-robin property), the `j`-th call observing timer reading `nows j`. -/
def yieldIter (nows : Nat → Nat) : Nat → TaskManager → Option TaskManager
  | 0, tm => some tm
  | k + 1, tm => (suspend_current_and_run_next (nows k) tm).bind (yieldIter nows k)

/-- Iterate `k` consecutive `syscall_count` calls with the same id. -/
def syscallIter (syscall_id : Nat) : Nat → TaskManager → TaskManager
  | 0, tm => tm
  | k + 1, tm => syscallIter syscall_id k (syscall_count tm syscall_id)

section ListHelpers

variable {α : Type _}

/-- Reading a `set` slot: the new value at the written (in-bounds) index,
the old value elsewhere. -/
theorem getD_set (l : List α) (i j : Nat) (a d : α) :
    (l.set i a).getD j d = if j = i ∧ i < l.length then a else l.getD j d := by
  induction l generalizing i j with
  | nil => simp
  | cons b l ih =>
    cases i with
    | zero =>
      cases j with
      | zero => simp
      | succ j => simp
    | succ i =>
      cases j with
      | zero => simp
      | succ j =>
        simp only [List.set_cons_succ, List.getD_cons_succ, ih, List.length_cons]
        have hiff : (j + 1 = i + 1 ∧ i + 1 < l.length + 1) ↔ (j = i ∧ i < l.length) := by omega
        exact (if_congr hiff rfl rfl).symm

/-- Reading an element of a mapped arithmetic range. -/
theorem getD_map_range' (f : Nat → α) :
    ∀ (s n i : Nat) (d : α),
      ((List.range' s n).map f).getD i d = if i < n then f (s + i) else d := by
  intro s n
  induction n generalizing s with
  | zero => intro i d; simp
  | succ n ih =>
    intro i d
    rw [List.range'_succ, List.map_cons]
    cases i with
    | zero => simp
    | succ i =>
      rw [List.getD_cons_succ, ih]
      have hiff : i + 1 < n + 1 ↔ i < n := Nat.succ_lt_succ_iff
      by_cases h : i < n
      · rw [if_pos h, if_pos (hiff.mpr h)]
        exact congrArg f (by omega)
      · rw [if_neg h, if_neg (fun hc => h (hiff.mp hc))]

/-- First-match characterization of `List.find?`. -/
theorem find?_eq_some_first (p : α → Bool) :
    ∀ (l : List α) (a : α),
      l.find? p = some a ↔
        p a = true ∧ ∃ l1 l2, l = l1 ++ a :: l2 ∧ ∀ x ∈ l1, p x = false := by
  intro l
  induction l with
  | nil => intro a; simp
  | cons b l ih =>
    intro a
    cases hb : p b with
    | true =>
      rw [List.find?_cons_of_pos l hb]
      constructor
      · rintro h
        cases h
        exact ⟨hb, [], l, rfl, by simp⟩
      · rintro ⟨hpa, l1, l2, hdec, hl1⟩
        cases l1 with
        | nil => simp at hdec; rw [hdec.1]
        | cons c l1 =>
          simp only [List.cons_append, List.cons.injEq] at hdec
          have : p b = false := hdec.1 ▸ hl1 c (by simp)
          rw [hb] at this; cases this
    | false =>
      rw [List.find?_cons_of_neg l (by simp [hb])]
      rw [ih]
      constructor
      · rintro ⟨hpa, l1, l2, hdec, hl1⟩
        exact ⟨hpa, b :: l1, l2, by rw [hdec, List.cons_append], by
          intro x hx
          rcases List.mem_cons.mp hx with h | h
          · rw [h]; exact hb
          · exact hl1 x h⟩
      · rintro ⟨hpa, l1, l2, hdec, hl1⟩
        cases l1 with
        | nil =>
          simp only [List.nil_append, List.cons.injEq] at hdec
          rw [hdec.1, hpa] at hb; cases hb
        | cons c l1 =>
          simp only [List.cons_append, List.cons.injEq] at hdec
          exact ⟨hpa, l1, l2, hdec.2, fun x hx => hl1 x (by simp [hx])⟩

end ListHelpers

/-- The list of task indices `find_next_task` examines, in order. -/
def scanOrder (tm : TaskManager) : List Nat :=
  (List.range' (tm.inner.current_task + 1) tm.num_app).map (fun id => id % tm.num_app)

/-- The predicate `find_next_task` tests on each scanned index. -/
def readyPred (tm : TaskManager) : Nat → Bool :=
  fun id => decide ((getTask tm id).task_status = TaskStatus.Ready)

theorem find_next_task_eq (tm : TaskManager) :
    find_next_task tm = (scanOrder tm).find? (readyPred tm) := rfl

theorem mem_scanOrder_lt {tm : TaskManager} {j : Nat} (h : j ∈ scanOrder tm) :
    j < tm.num_app := by
  obtain ⟨x, hx, hxj⟩ := List.mem_map.mp h
  obtain ⟨i, hi, _⟩ := List.mem_range'.mp hx
  have hn : 0 < tm.num_app := Nat.lt_of_le_of_lt (Nat.zero_le i) hi
  rw [← hxj]
  exact Nat.mod_lt x hn

theorem mem_scanOrder_of_lt (tm : TaskManager) (j : Nat) (hj : j < tm.num_app) :
    j ∈ scanOrder tm := by
  have hn : 0 < tm.num_app := Nat.lt_of_le_of_lt (Nat.zero_le j) hj
  set na := tm.num_app with hna
  set s := tm.inner.current_task + 1 with hs
  have hsr : na * (s / na) + s % na = s := Nat.div_add_mod s na
  have hr : s % na < na := Nat.mod_lt s hn
  set r := s % na with hrdef
  have key : ∃ m d, d < na ∧ s + d = na * m + j := by
    obtain ⟨t, ht⟩ : ∃ t, t = na * (s / na) := ⟨_, rfl⟩
    rw [← ht] at hsr
    by_cases hrj : r ≤ j
    · refine ⟨s / na, j - r, by omega, ?_⟩
      rw [← ht]; omega
    · refine ⟨s / na + 1, na + j - r, by omega, ?_⟩
      have h2 : na * (s / na + 1) = t + na := by rw [Nat.mul_add, ← ht, Nat.mul_one]
      rw [h2]; omega
  obtain ⟨m, d, hd, hmd⟩ := key
  refine List.mem_map.mpr ⟨s + d, List.mem_range'.mpr ⟨d, hd, by omega⟩, ?_⟩
  rw [hmd, ← hna, Nat.mul_add_mod, Nat.mod_eq_of_lt hj]

theorem scanOrder_nodup (tm : TaskManager) : (scanOrder tm).Nodup := by
  rcases Nat.eq_zero_or_pos tm.num_app with hz | hn
  · unfold scanOrder; rw [hz]; simp
  · refine List.Nodup.map_on ?_ (List.nodup_range' _ _)
    intro x hx y hy hxy
    obtain ⟨i, hi, hxi⟩ := List.mem_range'.mp hx
    obtain ⟨i', hi', hyi⟩ := List.mem_range'.mp hy
    rcases Nat.le_total x y with hle | hle
    · have h1 : tm.num_app ∣ y - x := (Nat.modEq_iff_dvd' hle).mp hxy
      have h2 : y - x = 0 := Nat.eq_zero_of_dvd_of_lt h1 (by omega) |>.symm ▸ rfl
      omega
    · have h1 : tm.num_app ∣ x - y := (Nat.modEq_iff_dvd' hle).mp hxy.symm
      have h2 : x - y = 0 := Nat.eq_zero_of_dvd_of_lt h1 (by omega) |>.symm ▸ rfl
      omega

theorem scanOrder_length (tm : TaskManager) : (scanOrder tm).length = tm.num_app := by
  unfold scanOrder; rw [List.length_map, List.length_range']

theorem scanOrder_count (tm : TaskManager) {j : Nat} (hj : j < tm.num_app) :
    (scanOrder tm).count j = 1 :=
  List.count_eq_one_of_mem (scanOrder_nodup tm) (mem_scanOrder_of_lt tm j hj)

theorem scanOrder_getLast (tm : TaskManager) (hn : 0 < tm.num_app) :
    (scanOrder tm).getLast? = some (tm.inner.current_task % tm.num_app) := by
  obtain ⟨m, hm⟩ : ∃ m, tm.num_app = m + 1 := ⟨tm.num_app - 1, by omega⟩
  set c := tm.inner.current_task with hc
  have hsplit : List.range' (c + 1) tm.num_app = List.range' (c + 1) m ++ [c + 1 + m] := by
    rw [hm]
    simpa using @List.range'_concat 1 (c + 1) m
  unfold scanOrder
  rw [← hc, hsplit, List.map_append, List.map_cons, List.map_nil, List.getLast?_concat]
  have h2 : c + 1 + m = c + tm.num_app := by omega
  rw [h2, Nat.add_mod_right]

theorem find_next_task_none_iff (tm : TaskManager) :
    find_next_task tm = none ↔
      ∀ j, j < tm.num_app → (getTask tm j).task_status ≠ TaskStatus.Ready := by
  rw [find_next_task_eq, List.find?_eq_none]
  constructor
  · intro h j hj
    have := h j (mem_scanOrder_of_lt tm j hj)
    simpa [readyPred] using this
  · intro h x hx
    have hlt := mem_scanOrder_lt hx
    simpa [readyPred] using h x hlt

theorem find_next_task_some_facts {tm : TaskManager} {next : Nat}
    (h : find_next_task tm = some next) :
    next < tm.num_app ∧ (getTask tm next).task_status = TaskStatus.Ready := by
  rw [find_next_task_eq] at h
  have h1 := List.find?_some h
  have h2 := List.mem_of_find?_eq_some h
  refine ⟨mem_scanOrder_lt h2, ?_⟩
  simpa [readyPred] using h1

theorem getTask_setTask (tm : TaskManager) (i j : Nat) (t : TaskControlBlock) :
    getTask (setTask tm i t) j =
      if j = i ∧ i < tm.inner.tasks.length then t else getTask tm j :=
  getD_set _ _ _ _ _

theorem num_app_setTask (tm : TaskManager) (i : Nat) (t : TaskControlBlock) :
    (setTask tm i t).num_app = tm.num_app := rfl

theorem current_setTask (tm : TaskManager) (i : Nat) (t : TaskControlBlock) :
    (setTask tm i t).inner.current_task = tm.inner.current_task := rfl

theorem length_setTask (tm : TaskManager) (i : Nat) (t : TaskControlBlock) :
    (setTask tm i t).inner.tasks.length = tm.inner.tasks.length :=
  List.length_set _ _ _

theorem num_app_mark_suspended (tm : TaskManager) :
    (mark_current_suspended tm).num_app = tm.num_app := rfl

theorem current_mark_suspended (tm : TaskManager) :
    (mark_current_suspended tm).inner.current_task = tm.inner.current_task := rfl

theorem length_mark_suspended (tm : TaskManager) :
    (mark_current_suspended tm).inner.tasks.length = tm.inner.tasks.length :=
  List.length_set _ _ _

theorem getTask_mark_suspended (tm : TaskManager) (j : Nat) :
    getTask (mark_current_suspended tm) j =
      if j = tm.inner.current_task ∧ tm.inner.current_task < tm.inner.tasks.length
      then { getTask tm tm.inner.current_task with task_status := TaskStatus.Ready }
      else getTask tm j :=
  getTask_setTask _ _ _ _

theorem num_app_mark_exited (tm : TaskManager) :
    (mark_current_exited tm).num_app = tm.num_app := rfl

theorem current_mark_exited (tm : TaskManager) :
    (mark_current_exited tm).inner.current_task = tm.inner.current_task := rfl

theorem length_mark_exited (tm : TaskManager) :
    (mark_current_exited tm).inner.tasks.length = tm.inner.tasks.length :=
  List.length_set _ _ _

theorem getTask_mark_exited (tm : TaskManager) (j : Nat) :
    getTask (mark_current_exited tm) j =
      if j = tm.inner.current_task ∧ tm.inner.current_task < tm.inner.tasks.length
      then { getTask tm tm.inner.current_task with task_status := TaskStatus.Exited }
      else getTask tm j :=
  getTask_setTask _ _ _ _

theorem num_app_syscall_count (tm : TaskManager) (id : Nat) :
    (syscall_count tm id).num_app = tm.num_app := rfl

theorem current_syscall_count (tm : TaskManager) (id : Nat) :
    (syscall_count tm id).inner.current_task = tm.inner.current_task := rfl

theorem length_syscall_count (tm : TaskManager) (id : Nat) :
    (syscall_count tm id).inner.tasks.length = tm.inner.tasks.length :=
  List.length_set _ _ _

theorem getTask_syscall_count (tm : TaskManager) (id j : Nat) :
    getTask (syscall_count tm id) j =
      if j = tm.inner.current_task ∧ tm.inner.current_task < tm.inner.tasks.length
      then { getTask tm tm.inner.current_task with
              syscall_times :=
                (getTask tm tm.inner.current_task).syscall_times.set id
                  (((getTask tm tm.inner.current_task).syscall_times.getD id 0 + 1)
                    % u32Mod) }
      else getTask tm j :=
  getTask_setTask _ _ _ _

theorem num_app_run_first (now : Nat) (tm : TaskManager) :
    (run_first_task now tm).num_app = tm.num_app := rfl

theorem current_run_first (now : Nat) (tm : TaskManager) :
    (run_first_task now tm).inner.current_task = tm.inner.current_task := rfl

theorem length_run_first (now : Nat) (tm : TaskManager) :
    (run_first_task now tm).inner.tasks.length = tm.inner.tasks.length :=
  List.length_set _ _ _

theorem getTask_run_first (now : Nat) (tm : TaskManager) (j : Nat) :
    getTask (run_first_task now tm) j =
      if j = 0 ∧ 0 < tm.inner.tasks.length
      then { getTask tm 0 with task_status := TaskStatus.Running, first_time := some now }
      else getTask tm j :=
  getTask_setTask _ _ _ _

/-- The successor state built by `run_next_task` once the scan has produced
`next`. -/
def dispatch (now : Nat) (tm : TaskManager) (next : Nat) : TaskManager :=
  let t := getTask tm next
  let t := { t with
    task_status := TaskStatus.Running
    first_time := if t.first_time.isNone then some now else t.first_time }
  { num_app := tm.num_app
    inner := { tasks := tm.inner.tasks.set next t, current_task := next } }

theorem run_next_task_eq_dispatch {tm : TaskManager} {next : Nat} (now : Nat)
    (h : find_next_task tm = some next) :
    run_next_task now tm = some (dispatch now tm next) := by
  unfold run_next_task dispatch
  rw [h]

theorem num_app_dispatch (now : Nat) (tm : TaskManager) (next : Nat) :
    (dispatch now tm next).num_app = tm.num_app := rfl

theorem current_dispatch (now : Nat) (tm : TaskManager) (next : Nat) :
    (dispatch now tm next).inner.current_task = next := rfl

theorem length_dispatch (now : Nat) (tm : TaskManager) (next : Nat) :
    (dispatch now tm next).inner.tasks.length = tm.inner.tasks.length :=
  List.length_set _ _ _

theorem getTask_dispatch (now : Nat) (tm : TaskManager) (next j : Nat) :
    getTask (dispatch now tm next) j =
      if j = next ∧ next < tm.inner.tasks.length
      then { getTask tm next with
              task_status := TaskStatus.Running
              first_time := if (getTask tm next).first_time.isNone then some now
                            else (getTask tm next).first_time }
      else getTask tm j :=
  getD_set _ _ _ _ _

theorem length_taskManagerInit (maxAppNum maxSyscallNum numApp : Nat) (cx : Nat → Nat) :
    (taskManagerInit maxAppNum maxSyscallNum numApp cx).inner.tasks.length = maxAppNum := by
  unfold taskManagerInit
  simp

theorem getTask_taskManagerInit (maxAppNum maxSyscallNum numApp : Nat) (cx : Nat → Nat)
    (i : Nat) :
    getTask (taskManagerInit maxAppNum maxSyscallNum numApp cx) i =
      if i < maxAppNum
      then { task_status := TaskStatus.Ready, task_cx := cx i,
             syscall_times := List.replicate maxSyscallNum 0, first_time := none }
      else default := by
  unfold getTask taskManagerInit initialTCB
  simp only
  rw [List.range_eq_range', getD_map_range']
  simp

/-- Invariant holding in every state reachable after `run_first_task`:
`num_app` and the table capacity are fixed, the current index is a valid
application index, the current task is `Running` and is the only `Running`
block, slots at or beyond `num_app` are untouched `Ready` blocks with no
timestamp, and every `Running` block carries a first-scheduled timestamp. -/
structure StateInv (numApp maxAppNum : Nat) (s : TaskManager) : Prop where
  num_app_eq : s.num_app = numApp
  len_eq : s.inner.tasks.length = maxAppNum
  le_cap : numApp ≤ maxAppNum
  cur_lt : s.inner.current_task < numApp
  cur_running : (getTask s s.inner.current_task).task_status = TaskStatus.Running
  uniq : ∀ i, i ≠ s.inner.current_task → (getTask s i).task_status ≠ TaskStatus.Running
  high_ready : ∀ i, numApp ≤ i → i < maxAppNum → (getTask s i).task_status = TaskStatus.Ready
  high_none : ∀ i, numApp ≤ i → (getTask s i).first_time = none
  running_some : ∀ i, (getTask s i).task_status = TaskStatus.Running →
    (getTask s i).first_time.isSome

theorem stateInv_boot (maxAppNum maxSyscallNum numApp : Nat) (cx : Nat → Nat) (now0 : Nat)
    (h1 : 1 ≤ numApp) (h2 : numApp ≤ maxAppNum) :
    StateInv numApp maxAppNum
      (run_first_task now0 (taskManagerInit maxAppNum maxSyscallNum numApp cx)) := by
  have hlen := length_taskManagerInit maxAppNum maxSyscallNum numApp cx
  have hget := getTask_taskManagerInit maxAppNum maxSyscallNum numApp cx
  set tm0 := taskManagerInit maxAppNum maxSyscallNum numApp cx with htm0
  have hcur : tm0.inner.current_task = 0 := rfl
  have h0len : 0 < tm0.inner.tasks.length := by omega
  refine ⟨?_, ?_, h2, ?_, ?_, ?_, ?_, ?_, ?_⟩
  · rw [num_app_run_first]; rfl
  · rw [length_run_first]; exact hlen
  · rw [current_run_first, hcur]; omega
  · rw [current_run_first, hcur, getTask_run_first, if_pos ⟨rfl, h0len⟩]
  · intro i hi
    rw [current_run_first, hcur] at hi
    rw [getTask_run_first, if_neg (fun hc => hi hc.1), hget]
    split
    · simp
    · simp [default]
  · intro i hna hmax
    have hi0 : i ≠ 0 := by omega
    rw [getTask_run_first, if_neg (fun hc => hi0 hc.1), hget, if_pos hmax]
  · intro i hna
    have hi0 : i ≠ 0 := by omega
    rw [getTask_run_first, if_neg (fun hc => hi0 hc.1), hget]
    split
    · rfl
    · rfl
  · intro i hrun
    by_cases hi0 : i = 0
    · subst hi0
      rw [getTask_run_first, if_pos ⟨rfl, h0len⟩]
      simp
    · rw [getTask_run_first, if_neg (fun hc => hi0 hc.1), hget] at hrun
      revert hrun
      split
      · simp
      · simp [default]

/-- Effect of a successful `run_next_task` on a state in which no task is
`Running` (the state right after `mark_current_suspended` or
`mark_current_exited`). -/
theorem run_next_preserves {numApp maxAppNum : Nat} {tm s' : TaskManager} {now : Nat}
    (hnum : tm.num_app = numApp) (hlen : tm.inner.tasks.length = maxAppNum)
    (hcap : numApp ≤ maxAppNum)
    (hnorun : ∀ i, (getTask tm i).task_status ≠ TaskStatus.Running)
    (hhr : ∀ i, numApp ≤ i → i < maxAppNum → (getTask tm i).task_status = TaskStatus.Ready)
    (hhn : ∀ i, numApp ≤ i → (getTask tm i).first_time = none)
    (h : run_next_task now tm = some s') :
    StateInv numApp maxAppNum s' ∧
    (∀ i, i ≠ s'.inner.current_task → getTask s' i = getTask tm i) ∧
    (getTask s' s'.inner.current_task).first_time.isSome := by
  cases hf : find_next_task tm with
  | none => rw [run_next_task, hf] at h; cases h
  | some next =>
    rw [run_next_task_eq_dispatch now hf] at h
    obtain ⟨hlt, _⟩ := find_next_task_some_facts hf
    rw [hnum] at hlt
    have hnextlen : next < tm.inner.tasks.length := by omega
    cases h
    have hcur : (dispatch now tm next).inner.current_task = next := rfl
    have hframe : ∀ i, i ≠ next → getTask (dispatch now tm next) i = getTask tm i := by
      intro i hi
      rw [getTask_dispatch, if_neg (fun hc => hi hc.1)]
    have hself : getTask (dispatch now tm next) next =
        { getTask tm next with
            task_status := TaskStatus.Running
            first_time := if (getTask tm next).first_time.isNone then some now
                          else (getTask tm next).first_time } := by
      rw [getTask_dispatch, if_pos ⟨rfl, hnextlen⟩]
    have hsome : (getTask (dispatch now tm next) next).first_time.isSome := by
      rw [hself]
      cases hft : (getTask tm next).first_time <;> simp [hft]
    refine ⟨⟨?_, ?_, hcap, ?_, ?_, ?_, ?_, ?_, ?_⟩, ?_, ?_⟩
    · rw [num_app_dispatch]; exact hnum
    · rw [length_dispatch]; exact hlen
    · rw [hcur]; exact hlt
    · rw [hcur, hself]
    · intro i hi
      rw [hcur] at hi
      rw [hframe i hi]
      exact hnorun i
    · intro i hna hmax
      have hi : i ≠ next := by omega
      rw [hframe i hi]
      exact hhr i hna hmax
    · intro i hna
      have hi : i ≠ next := by omega
      rw [hframe i hi]
      exact hhn i hna
    · intro i hrun
      by_cases hi : i = next
      · subst hi; exact hsome
      · rw [hframe i hi] at hrun
        exact absurd hrun (hnorun i)
    · rw [hcur]; exact hframe
    · rw [hcur]; exact hsome

theorem getTask_syscall_status (tm : TaskManager) (id j : Nat) :
    (getTask (syscall_count tm id) j).task_status = (getTask tm j).task_status := by
  rw [getTask_syscall_count]
  split
  · rename_i hc
    rw [hc.1]
  · rfl

theorem getTask_syscall_first (tm : TaskManager) (id j : Nat) :
    (getTask (syscall_count tm id) j).first_time = (getTask tm j).first_time := by
  rw [getTask_syscall_count]
  split
  · rename_i hc
    rw [hc.1]
  · rfl

theorem getTask_syscall_cx (tm : TaskManager) (id j : Nat) :
    (getTask (syscall_count tm id) j).task_cx = (getTask tm j).task_cx := by
  rw [getTask_syscall_count]
  split
  · rename_i hc
    rw [hc.1]
  · rfl

theorem noRunning_mark_suspended {numApp maxAppNum : Nat} {tm : TaskManager}
    (hInv : StateInv numApp maxAppNum tm) :
    ∀ i, (getTask (mark_current_suspended tm) i).task_status ≠ TaskStatus.Running := by
  have hclen : tm.inner.current_task < tm.inner.tasks.length := by
    have := hInv.cur_lt; have := hInv.le_cap; have := hInv.len_eq; omega
  intro i
  by_cases hi : i = tm.inner.current_task
  · rw [getTask_mark_suspended, if_pos ⟨hi, hclen⟩]
    simp
  · rw [getTask_mark_suspended, if_neg (fun hc => hi hc.1)]
    exact hInv.uniq i hi

theorem noRunning_mark_exited {numApp maxAppNum : Nat} {tm : TaskManager}
    (hInv : StateInv numApp maxAppNum tm) :
    ∀ i, (getTask (mark_current_exited tm) i).task_status ≠ TaskStatus.Running := by
  have hclen : tm.inner.current_task < tm.inner.tasks.length := by
    have := hInv.cur_lt; have := hInv.le_cap; have := hInv.len_eq; omega
  intro i
  by_cases hi : i = tm.inner.current_task
  · rw [getTask_mark_exited, if_pos ⟨hi, hclen⟩]
    simp
  · rw [getTask_mark_exited, if_neg (fun hc => hi hc.1)]
    exact hInv.uniq i hi

theorem high_frame_mark_suspended {numApp maxAppNum : Nat} {tm : TaskManager}
    (hInv : StateInv numApp maxAppNum tm) :
    ∀ i, numApp ≤ i → getTask (mark_current_suspended tm) i = getTask tm i := by
  intro i hna
  have hi : i ≠ tm.inner.current_task := by have := hInv.cur_lt; omega
  rw [getTask_mark_suspended, if_neg (fun hc => hi hc.1)]

theorem high_frame_mark_exited {numApp maxAppNum : Nat} {tm : TaskManager}
    (hInv : StateInv numApp maxAppNum tm) :
    ∀ i, numApp ≤ i → getTask (mark_current_exited tm) i = getTask tm i := by
  intro i hna
  have hi : i ≠ tm.inner.current_task := by have := hInv.cur_lt; omega
  rw [getTask_mark_exited, if_neg (fun hc => hi hc.1)]

/-- Every successful operation preserves the state invariant. -/
theorem stateInv_step {numApp maxAppNum : Nat} {tm s' : TaskManager} {op : Op}
    (hInv : StateInv numApp maxAppNum tm) (h : step op tm = some s') :
    StateInv numApp maxAppNum s' := by
  cases op with
  | suspendAndRunNext now =>
    refine (run_next_preserves ?_ ?_ hInv.le_cap (noRunning_mark_suspended hInv) ?_ ?_ h).1
    · rw [num_app_mark_suspended]; exact hInv.num_app_eq
    · rw [length_mark_suspended]; exact hInv.len_eq
    · intro i hna hmax
      rw [high_frame_mark_suspended hInv i hna]
      exact hInv.high_ready i hna hmax
    · intro i hna
      rw [high_frame_mark_suspended hInv i hna]
      exact hInv.high_none i hna
  | exitAndRunNext now =>
    refine (run_next_preserves ?_ ?_ hInv.le_cap (noRunning_mark_exited hInv) ?_ ?_ h).1
    · rw [num_app_mark_exited]; exact hInv.num_app_eq
    · rw [length_mark_exited]; exact hInv.len_eq
    · intro i hna hmax
      rw [high_frame_mark_exited hInv i hna]
      exact hInv.high_ready i hna hmax
    · intro i hna
      rw [high_frame_mark_exited hInv i hna]
      exact hInv.high_none i hna
  | recordSyscall id =>
    cases h
    refine ⟨?_, ?_, hInv.le_cap, ?_, ?_, ?_, ?_, ?_, ?_⟩
    · rw [num_app_syscall_count]; exact hInv.num_app_eq
    · rw [length_syscall_count]; exact hInv.len_eq
    · rw [current_syscall_count]; exact hInv.cur_lt
    · rw [current_syscall_count, getTask_syscall_status]; exact hInv.cur_running
    · intro i hi
      rw [current_syscall_count] at hi
      rw [getTask_syscall_status]
      exact hInv.uniq i hi
    · intro i hna hmax
      rw [getTask_syscall_status]
      exact hInv.high_ready i hna hmax
    · intro i hna
      rw [getTask_syscall_first]
      exact hInv.high_none i hna
    · intro i hrun
      rw [getTask_syscall_status] at hrun
      rw [getTask_syscall_first]
      exact hInv.running_some i hrun
  | querySyscallTimes => cases h; exact hInv
  | queryStatus => cases h; exact hInv
  | queryRunningTime now =>
    simp only [step] at h
    cases hq : get_current_running_time now tm with
    | none => rw [hq] at h; cases h
    | some v => rw [hq] at h; simp at h; rw [← h]; exact hInv

/-- The invariant is preserved along any successful execution. -/
theorem execFrom_stateInv {numApp maxAppNum : Nat} :
    ∀ (ops : List Op) {tm s : TaskManager},
      StateInv numApp maxAppNum tm → execFrom tm ops = some s →
      StateInv numApp maxAppNum s := by
  intro ops
  induction ops with
  | nil => intro tm s hInv h; cases h; exact hInv
  | cons op ops ih =>
    intro tm s hInv h
    unfold execFrom at h
    cases hst : step op tm with
    | none => rw [hst] at h; cases h
    | some tm' =>
      rw [hst] at h
      exact ih (stateInv_step hInv hst) h

/-- Every reachable state satisfies the invariant. -/
theorem reachable_stateInv {maxAppNum maxSyscallNum numApp : Nat} {s : TaskManager}
    (h1 : 1 ≤ numApp) (h2 : numApp ≤ maxAppNum)
    (hr : Reachable maxAppNum maxSyscallNum numApp s) :
    StateInv numApp maxAppNum s := by
  obtain ⟨cx, now0, ops, hexec⟩ := hr
  exact execFrom_stateInv ops
    (stateInv_boot maxAppNum maxSyscallNum numApp cx now0 h1 h2) hexec

/-- A sample task control block used in concrete witness states. -/
def sampleTCB (st : TaskStatus) : TaskControlBlock :=
  { task_status := st, task_cx := 0, syscall_times := [0, 0], first_time := none }

/-- Concrete state: three tasks, task 0 exited, current is task 1. -/
def sampleC1 : TaskManager :=
  { num_app := 3
    inner :=
      { tasks := [sampleTCB TaskStatus.Exited, sampleTCB TaskStatus.Running,
                  sampleTCB TaskStatus.Ready]
        current_task := 1 } }

/-- Concrete state: both applications exited, an unused `Ready` slot beyond
`num_app`. -/
def sampleC4 : TaskManager :=
  { num_app := 2
    inner :=
      { tasks := [sampleTCB TaskStatus.Exited, sampleTCB TaskStatus.Exited,
                  sampleTCB TaskStatus.Ready]
        current_task := 0 } }

/-- Concrete state: zero loaded applications. -/
def sampleC10 : TaskManager :=
  { num_app := 0, inner := { tasks := [], current_task := 7 } }

/-- Concrete boot state: two applications, capacity two. -/
def bootW : TaskManager := run_first_task 0 (taskManagerInit 2 1 2 (fun i => i))

/-- Concrete reachable state: boot, then one yield. -/
def s2W : TaskManager := (execFrom bootW [Op.suspendAndRunNext 1]).getD default

/-- C1: for `num_app ≥ 1`, `find_next_task` scans `current+1 .. current+num_app`
reduced modulo `num_app` — a scan of length `num_app` that examines every task
index exactly once and examines the current (modulo-reduced) index last — and
returns the first scanned index whose block is `Ready`, `none` exactly when no
task index below `num_app` is `Ready`. -/
theorem claim_C1 (tm : TaskManager) (h1 : 1 ≤ tm.num_app) :
    (scanOrder tm).length = tm.num_app ∧
    (∀ j, j < tm.num_app → (scanOrder tm).count j = 1) ∧
    (scanOrder tm).getLast? = some (tm.inner.current_task % tm.num_app) ∧
    find_next_task tm = (scanOrder tm).find? (readyPred tm) ∧
    (∀ i, find_next_task tm = some i ↔
      (getTask tm i).task_status = TaskStatus.Ready ∧
      ∃ l1 l2, scanOrder tm = l1 ++ i :: l2 ∧
        ∀ x ∈ l1, (getTask tm x).task_status ≠ TaskStatus.Ready) ∧
    (find_next_task tm = none ↔
      ∀ j, j < tm.num_app → (getTask tm j).task_status ≠ TaskStatus.Ready) := by
  refine ⟨scanOrder_length tm, fun j hj => scanOrder_count tm hj,
    scanOrder_getLast tm h1, find_next_task_eq tm, ?_, find_next_task_none_iff tm⟩
  intro i
  rw [find_next_task_eq, find?_eq_some_first]
  constructor
  · rintro ⟨hp, l1, l2, hdec, hl1⟩
    refine ⟨by simpa [readyPred] using hp, l1, l2, hdec, ?_⟩
    intro x hx
    have := hl1 x hx
    simpa [readyPred] using this
  · rintro ⟨hp, l1, l2, hdec, hl1⟩
    refine ⟨by simpa [readyPred] using hp, l1, l2, hdec, ?_⟩
    intro x hx
    have := hl1 x hx
    simpa [readyPred] using this

/-- Witness for C1 at a concrete three-task state: the scan has length 3 and
selects task 2, the first `Ready` task after the current task 1. -/
theorem claim_C1_witness :
    (scanOrder sampleC1).length = sampleC1.num_app ∧ find_next_task sampleC1 = some 2 := by
  have h := claim_C1 sampleC1 (by decide)
  refine ⟨h.1, ?_⟩
  exact (h.2.2.2.2.1 2).mpr (by
    refine ⟨by decide, [], [0, 1], by decide, ?_⟩
    intro x hx
    cases hx)

/-- C2: in every reachable state with at least one not-Exited application,
the current task index is a valid application index, its block is the one
`Running` block, and no other application index is `Running`. -/
theorem claim_C2 (maxAppNum maxSyscallNum numApp : Nat) (s : TaskManager)
    (h1 : 1 ≤ numApp) (h2 : numApp ≤ maxAppNum)
    (hr : Reachable maxAppNum maxSyscallNum numApp s)
    (hlive : ∃ i, i < numApp ∧ (getTask s i).task_status ≠ TaskStatus.Exited) :
    s.inner.current_task < numApp ∧
    (getTask s s.inner.current_task).task_status = TaskStatus.Running ∧
    ∀ j, j < numApp → (getTask s j).task_status = TaskStatus.Running →
      j = s.inner.current_task := by
  have hInv := reachable_stateInv h1 h2 hr
  refine ⟨hInv.cur_lt, hInv.cur_running, ?_⟩
  intro j _ hj
  by_contra hne
  exact hInv.uniq j hne hj

/-- Witness for C2 at the concrete reachable state `s2W` (boot then one
yield): the current task is 1 and it is `Running`. -/
theorem claim_C2_witness :
    s2W.inner.current_task < 2 ∧
    (getTask s2W s2W.inner.current_task).task_status = TaskStatus.Running := by
  have h := claim_C2 2 1 2 s2W (by decide) (by decide)
    ⟨fun i => i, 0, [Op.suspendAndRunNext 1], by decide⟩
    ⟨0, by decide, by decide⟩
  exact ⟨h.1, h.2.1⟩

/-- C4: when no application index holds a `Ready` block, `run_next_task`
selects nothing and panics (modelled as `none`, with no successor state). -/
theorem claim_C4 (tm : TaskManager) (now : Nat)
    (h : ∀ i, i < tm.num_app → (getTask tm i).task_status ≠ TaskStatus.Ready) :
    find_next_task tm = none ∧ run_next_task now tm = none := by
  have hn : find_next_task tm = none := (find_next_task_none_iff tm).mpr h
  refine ⟨hn, ?_⟩
  unfold run_next_task
  rw [hn]

/-- Witness for C4: with both applications `Exited` (and an unused `Ready`
slot beyond `num_app`), `run_next_task` halts. -/
theorem claim_C4_witness :
    find_next_task sampleC4 = none ∧ run_next_task 5 sampleC4 = none :=
  claim_C4 sampleC4 5 (by decide)

/-- C8: `sys_get_time` splits the microsecond reading into whole seconds and
residual microseconds, with `sec * 1000000 + usec = us` and `usec < 1000000`,
and returns 0. -/
theorem claim_C8 (us : Nat) :
    (sys_get_time us).1.sec = us / 1000000 ∧
    (sys_get_time us).1.usec = us % 1000000 ∧
    (sys_get_time us).1.sec * 1000000 + (sys_get_time us).1.usec = us ∧
    (sys_get_time us).1.usec < 1000000 ∧
    (sys_get_time us).2 = 0 := by
  refine ⟨rfl, rfl, ?_, ?_, rfl⟩
  · show us / 1000000 * 1000000 + us % 1000000 = us
    omega
  · show us % 1000000 < 1000000
    omega

/-- C9: at construction every slot of the capacity-`maxAppNum` table is
`Ready`; in every reachable state `find_next_task` only returns application
indices below `num_app`, and the slots at or beyond `num_app` are still
`Ready`. -/
theorem claim_C9 (maxAppNum maxSyscallNum numApp : Nat) (cx : Nat → Nat)
    (s : TaskManager) (h1 : 1 ≤ numApp) (h2 : numApp ≤ maxAppNum)
    (hr : Reachable maxAppNum maxSyscallNum numApp s) :
    (∀ i, i < maxAppNum →
      (getTask (taskManagerInit maxAppNum maxSyscallNum numApp cx) i).task_status =
        TaskStatus.Ready) ∧
    (∀ i, find_next_task s = some i → i < numApp) ∧
    (∀ i, numApp ≤ i → i < maxAppNum → (getTask s i).task_status = TaskStatus.Ready) ∧
    (∀ i, numApp ≤ i → (getTask s i).task_status ≠ TaskStatus.Running) := by
  have hInv := reachable_stateInv h1 h2 hr
  refine ⟨?_, ?_, hInv.high_ready, ?_⟩
  · intro i hi
    rw [getTask_taskManagerInit, if_pos hi]
  · intro i hfi
    have h := (find_next_task_some_facts hfi).1
    have := hInv.num_app_eq
    omega
  · intro i hna
    have hne : i ≠ s.inner.current_task := by
      have := hInv.cur_lt; omega
    exact hInv.uniq i hne

/-- Witness for C9 at the concrete reachable state `s2W`: slot 2 does not
exist beyond capacity here, so instantiate with capacity 3 and two
applications instead: boot with `maxAppNum = 3`, `num_app = 2`, one yield;
the unused slot 2 is still `Ready`. -/
theorem claim_C9_witness :
    (getTask ((execFrom (run_first_task 0 (taskManagerInit 3 1 2 (fun i => i)))
      [Op.suspendAndRunNext 1]).getD default) 2).task_status = TaskStatus.Ready := by
  have h := claim_C9 3 1 2 (fun i => i)
    ((execFrom (run_first_task 0 (taskManagerInit 3 1 2 (fun i => i)))
      [Op.suspendAndRunNext 1]).getD default)
    (by decide) (by decide)
    ⟨fun i => i, 0, [Op.suspendAndRunNext 1], by decide⟩
  exact h.2.2.1 2 (by decide) (by decide)

/-- C10: with `num_app = 0` the scan list is empty (the modulo expression is
never evaluated), so `find_next_task` returns `none` for every value of
`current_task` and `run_next_task` takes the fatal-halt branch. -/
theorem claim_C10 (tm : TaskManager) (now : Nat) (h : tm.num_app = 0) :
    scanOrder tm = [] ∧ find_next_task tm = none ∧ run_next_task now tm = none := by
  have hscan : scanOrder tm = [] := by
    unfold scanOrder
    rw [h]
    rfl
  have hfind : find_next_task tm = none := by
    rw [find_next_task_eq, hscan]
    rfl
  refine ⟨hscan, hfind, ?_⟩
  unfold run_next_task
  rw [hfind]

/-- Witness for C10 at a concrete empty manager with `current_task = 7`. -/
theorem claim_C10_witness :
    scanOrder sampleC10 = [] ∧ find_next_task sampleC10 = none ∧
    run_next_task 3 sampleC10 = none :=
  claim_C10 sampleC10 3 (by decide)

theorem syscall_count_getD_self (tm : TaskManager) (id : Nat)
    (hc : tm.inner.current_task < tm.inner.tasks.length)
    (hid : id < (getTask tm tm.inner.current_task).syscall_times.length) :
    (getTask (syscall_count tm id) tm.inner.current_task).syscall_times.getD id 0 =
      ((getTask tm tm.inner.current_task).syscall_times.getD id 0 + 1) % u32Mod := by
  rw [getTask_syscall_count, if_pos ⟨rfl, hc⟩]
  show ((getTask tm tm.inner.current_task).syscall_times.set id _).getD id 0 = _
  rw [getD_set, if_pos ⟨rfl, hid⟩]

theorem syscall_count_getD_self_exact (tm : TaskManager) (id : Nat)
    (hc : tm.inner.current_task < tm.inner.tasks.length)
    (hid : id < (getTask tm tm.inner.current_task).syscall_times.length)
    (hnw : (getTask tm tm.inner.current_task).syscall_times.getD id 0 + 1 < u32Mod) :
    (getTask (syscall_count tm id) tm.inner.current_task).syscall_times.getD id 0 =
      (getTask tm tm.inner.current_task).syscall_times.getD id 0 + 1 := by
  rw [syscall_count_getD_self tm id hc hid, Nat.mod_eq_of_lt hnw]

theorem syscall_count_getD_other (tm : TaskManager) (id j : Nat) (hj : j ≠ id)
    (hc : tm.inner.current_task < tm.inner.tasks.length) :
    (getTask (syscall_count tm id) tm.inner.current_task).syscall_times.getD j 0 =
      (getTask tm tm.inner.current_task).syscall_times.getD j 0 := by
  rw [getTask_syscall_count, if_pos ⟨rfl, hc⟩]
  show ((getTask tm tm.inner.current_task).syscall_times.set id _).getD j 0 = _
  rw [getD_set, if_neg (fun hcc => hj hcc.1)]

theorem syscall_count_length_self (tm : TaskManager) (id : Nat)
    (hc : tm.inner.current_task < tm.inner.tasks.length) :
    (getTask (syscall_count tm id) tm.inner.current_task).syscall_times.length =
      (getTask tm tm.inner.current_task).syscall_times.length := by
  rw [getTask_syscall_count, if_pos ⟨rfl, hc⟩]
  show ((getTask tm tm.inner.current_task).syscall_times.set id _).length = _
  exact List.length_set _ _ _

/-- Counter of the current task after `k` repeated `syscall_count` calls:
the wrapped `u32` increments accumulate modulo `2 ^ 32`. -/
theorem syscallIter_spec (id : Nat) :
    ∀ (k : Nat) (tm : TaskManager),
      tm.inner.current_task < tm.inner.tasks.length →
      id < (getTask tm tm.inner.current_task).syscall_times.length →
      (getTask tm tm.inner.current_task).syscall_times.getD id 0 < u32Mod →
      (syscallIter id k tm).inner.current_task = tm.inner.current_task ∧
      (getTask (syscallIter id k tm) tm.inner.current_task).syscall_times.getD id 0 =
        ((getTask tm tm.inner.current_task).syscall_times.getD id 0 + k) % u32Mod := by
  intro k
  induction k with
  | zero =>
    intro tm hc hid hlt
    refine ⟨rfl, ?_⟩
    show (getTask tm tm.inner.current_task).syscall_times.getD id 0 = _
    rw [Nat.add_zero, Nat.mod_eq_of_lt hlt]
  | succ k ih =>
    intro tm hc hid hlt
    have hc' : (syscall_count tm id).inner.current_task <
        (syscall_count tm id).inner.tasks.length := by
      rw [current_syscall_count, length_syscall_count]; exact hc
    have hlen1 := syscall_count_length_self tm id hc
    have hid' : id < (getTask (syscall_count tm id)
        (syscall_count tm id).inner.current_task).syscall_times.length := by
      rw [current_syscall_count, hlen1]; exact hid
    have hlt' : (getTask (syscall_count tm id)
        (syscall_count tm id).inner.current_task).syscall_times.getD id 0 < u32Mod := by
      rw [current_syscall_count, syscall_count_getD_self tm id hc hid]
      exact Nat.mod_lt _ (by decide)
    obtain ⟨ih1, ih2⟩ := ih (syscall_count tm id) hc' hid' hlt'
    rw [current_syscall_count] at ih1 ih2
    refine ⟨?_, ?_⟩
    · show (syscallIter id k (syscall_count tm id)).inner.current_task = _
      rw [ih1]
    · show (getTask (syscallIter id k (syscall_count tm id))
        tm.inner.current_task).syscall_times.getD id 0 = _
      rw [ih2, syscall_count_getD_self tm id hc hid, Nat.mod_add_mod]
      have harith : (getTask tm tm.inner.current_task).syscall_times.getD id 0 + 1 + k =
          (getTask tm tm.inner.current_task).syscall_times.getD id 0 + (k + 1) := by omega
      rw [harith]

/-- While the accumulated count stays below `2 ^ 32`, the iterated counter is
exactly the initial value plus `k`. -/
theorem syscallIter_spec_exact (id k : Nat) (tm : TaskManager)
    (hc : tm.inner.current_task < tm.inner.tasks.length)
    (hid : id < (getTask tm tm.inner.current_task).syscall_times.length)
    (hnw : (getTask tm tm.inner.current_task).syscall_times.getD id 0 + k < u32Mod) :
    (getTask (syscallIter id k tm) tm.inner.current_task).syscall_times.getD id 0 =
      (getTask tm tm.inner.current_task).syscall_times.getD id 0 + k := by
  have hlt : (getTask tm tm.inner.current_task).syscall_times.getD id 0 < u32Mod := by
    omega
  rw [(syscallIter_spec id k tm hc hid hlt).2, Nat.mod_eq_of_lt hnw]

theorem syscall_times_mark_suspended (tm : TaskManager) (i : Nat) :
    (getTask (mark_current_suspended tm) i).syscall_times = (getTask tm i).syscall_times := by
  rw [getTask_mark_suspended]
  split
  · rename_i hc
    rw [hc.1]
  · rfl

theorem syscall_times_mark_exited (tm : TaskManager) (i : Nat) :
    (getTask (mark_current_exited tm) i).syscall_times = (getTask tm i).syscall_times := by
  rw [getTask_mark_exited]
  split
  · rename_i hc
    rw [hc.1]
  · rfl

theorem syscall_times_dispatch (now : Nat) (tm : TaskManager) (next i : Nat) :
    (getTask (dispatch now tm next) i).syscall_times = (getTask tm i).syscall_times := by
  rw [getTask_dispatch]
  split
  · rename_i hc
    rw [hc.1]
  · rfl

/-- Across any successful operation each counter either keeps its value or
receives exactly one wrapped `u32` increment. -/
theorem step_counter_cases {tm s' : TaskManager} {op : Op} (h : step op tm = some s') :
    ∀ i j,
      (getTask s' i).syscall_times.getD j 0 = (getTask tm i).syscall_times.getD j 0 ∨
      (getTask s' i).syscall_times.getD j 0 =
        ((getTask tm i).syscall_times.getD j 0 + 1) % u32Mod := by
  intro i j
  cases op with
  | suspendAndRunNext now =>
    simp only [step, suspend_current_and_run_next] at h
    cases hf : find_next_task (mark_current_suspended tm) with
    | none => rw [run_next_task, hf] at h; cases h
    | some next =>
      rw [run_next_task_eq_dispatch now hf] at h
      cases h
      exact Or.inl (by rw [syscall_times_dispatch, syscall_times_mark_suspended])
  | exitAndRunNext now =>
    simp only [step, exit_current_and_run_next] at h
    cases hf : find_next_task (mark_current_exited tm) with
    | none => rw [run_next_task, hf] at h; cases h
    | some next =>
      rw [run_next_task_eq_dispatch now hf] at h
      cases h
      exact Or.inl (by rw [syscall_times_dispatch, syscall_times_mark_exited])
  | recordSyscall id =>
    cases h
    rw [getTask_syscall_count]
    split
    · rename_i hc
      rw [hc.1]
      show (((getTask tm tm.inner.current_task).syscall_times.set id _).getD j 0 = _) ∨
        (((getTask tm tm.inner.current_task).syscall_times.set id _).getD j 0 = _)
      rw [getD_set]
      split
      · rename_i hcc
        rw [hcc.1]
        exact Or.inr rfl
      · exact Or.inl rfl
    · exact Or.inl rfl
  | querySyscallTimes => cases h; exact Or.inl rfl
  | queryStatus => cases h; exact Or.inl rfl
  | queryRunningTime now =>
    simp only [step] at h
    cases hq : get_current_running_time now tm with
    | none => rw [hq] at h; cases h
    | some v => rw [hq] at h; simp at h; rw [← h]; exact Or.inl rfl

/-- Counters never decrease across a successful operation as long as the
incremented value does not overflow the `u32`. -/
theorem step_counter_mono {tm s' : TaskManager} {op : Op} (h : step op tm = some s') :
    ∀ i j, (getTask tm i).syscall_times.getD j 0 + 1 < u32Mod →
      (getTask tm i).syscall_times.getD j 0 ≤ (getTask s' i).syscall_times.getD j 0 := by
  intro i j hnw
  rcases step_counter_cases h i j with hh | hh
  · rw [hh]
  · rw [hh, Nat.mod_eq_of_lt hnw]
    omega

/-- Concrete state whose current task's counter for id 0 sits at the `u32`
maximum `2 ^ 32 - 1`. -/
def sampleC6 : TaskManager :=
  { num_app := 1
    inner :=
      { tasks := [{ task_status := TaskStatus.Running, task_cx := 0,
                    syscall_times := [4294967295], first_time := some 0 }]
        current_task := 0 } }

/-- Counterexample to C6 as stated: with the current task's counter at the
`u32` maximum `2 ^ 32 - 1`, `syscall_count` wraps it to 0 — the counter is
not incremented by exactly 1, and it decreases. -/
theorem claim_C6_counterexample :
    (getTask sampleC6 0).syscall_times.getD 0 0 = 4294967295 ∧
    (getTask (syscall_count sampleC6 0) 0).syscall_times.getD 0 0 = 0 ∧
    (getTask (syscall_count sampleC6 0) 0).syscall_times.getD 0 0 ≠
      (getTask sampleC6 0).syscall_times.getD 0 0 + 1 ∧
    (getTask (syscall_count sampleC6 0) 0).syscall_times.getD 0 0 <
      (getTask sampleC6 0).syscall_times.getD 0 0 := by
  refine ⟨rfl, ?_, by decide, by decide⟩
  rfl

/-- C6 (amended): `syscall_count` applies one wrapped `u32` increment to the
current task's counter for the given in-bounds id — exactly `+1` whenever
the incremented value stays below `2 ^ 32` — and changes nothing else: every
other counter of the current task, the status, context and timestamp of every
task, every other task's whole block, the current index and `num_app` are
unchanged.  `k` repetitions accumulate modulo `2 ^ 32`, hence read exactly
`+k` while no overflow occurs, and no successful operation decreases a
counter whose increment does not overflow. -/
theorem claim_C6 (tm : TaskManager) (id : Nat)
    (hc : tm.inner.current_task < tm.inner.tasks.length)
    (hid : id < (getTask tm tm.inner.current_task).syscall_times.length) :
    ((getTask (syscall_count tm id) tm.inner.current_task).syscall_times.getD id 0 =
      ((getTask tm tm.inner.current_task).syscall_times.getD id 0 + 1) % u32Mod) ∧
    ((getTask tm tm.inner.current_task).syscall_times.getD id 0 + 1 < u32Mod →
      (getTask (syscall_count tm id) tm.inner.current_task).syscall_times.getD id 0 =
        (getTask tm tm.inner.current_task).syscall_times.getD id 0 + 1) ∧
    (∀ j, j ≠ id →
      (getTask (syscall_count tm id) tm.inner.current_task).syscall_times.getD j 0 =
        (getTask tm tm.inner.current_task).syscall_times.getD j 0) ∧
    (∀ i, (getTask (syscall_count tm id) i).task_status = (getTask tm i).task_status) ∧
    (∀ i, (getTask (syscall_count tm id) i).task_cx = (getTask tm i).task_cx) ∧
    (∀ i, (getTask (syscall_count tm id) i).first_time = (getTask tm i).first_time) ∧
    (∀ i, i ≠ tm.inner.current_task → getTask (syscall_count tm id) i = getTask tm i) ∧
    (syscall_count tm id).inner.current_task = tm.inner.current_task ∧
    (syscall_count tm id).num_app = tm.num_app ∧
    (∀ k, (getTask tm tm.inner.current_task).syscall_times.getD id 0 < u32Mod →
      (getTask (syscallIter id k tm) tm.inner.current_task).syscall_times.getD id 0 =
        ((getTask tm tm.inner.current_task).syscall_times.getD id 0 + k) % u32Mod) ∧
    (∀ k, (getTask tm tm.inner.current_task).syscall_times.getD id 0 + k < u32Mod →
      (getTask (syscallIter id k tm) tm.inner.current_task).syscall_times.getD id 0 =
        (getTask tm tm.inner.current_task).syscall_times.getD id 0 + k) ∧
    (∀ (op : Op) (s' : TaskManager), step op tm = some s' → ∀ i j,
      (getTask s' i).syscall_times.getD j 0 = (getTask tm i).syscall_times.getD j 0 ∨
      (getTask s' i).syscall_times.getD j 0 =
        ((getTask tm i).syscall_times.getD j 0 + 1) % u32Mod) ∧
    (∀ (op : Op) (s' : TaskManager), step op tm = some s' → ∀ i j,
      (getTask tm i).syscall_times.getD j 0 + 1 < u32Mod →
      (getTask tm i).syscall_times.getD j 0 ≤ (getTask s' i).syscall_times.getD j 0) := by
  refine ⟨syscall_count_getD_self tm id hc hid,
    fun hnw => syscall_count_getD_self_exact tm id hc hid hnw,
    fun j hj => syscall_count_getD_other tm id j hj hc,
    getTask_syscall_status tm id, getTask_syscall_cx tm id, getTask_syscall_first tm id,
    ?_, current_syscall_count tm id, num_app_syscall_count tm id,
    fun k hlt => (syscallIter_spec id k tm hc hid hlt).2,
    fun k hnw => syscallIter_spec_exact id k tm hc hid hnw,
    fun op s' h => step_counter_cases h,
    fun op s' h i j hnw => step_counter_mono h i j hnw⟩
  intro i hi
  rw [getTask_syscall_count, if_neg (fun hcc => hi hcc.1)]

/-- Witness for the amended C6 at the concrete reachable state `s2W`: one
`syscall_count` with id 0 takes the current task's counter 0 to 1 (no
overflow occurs). -/
theorem claim_C6_witness :
    (getTask (syscall_count s2W 0) s2W.inner.current_task).syscall_times.getD 0 0 =
      (getTask s2W s2W.inner.current_task).syscall_times.getD 0 0 + 1 :=
  (claim_C6 s2W 0 (by decide) (by decide)).2.1 (by decide)

/-- C7: when the current task's first-scheduled timestamp is present,
`get_current_running_time` returns `now` minus that timestamp, does not
panic, and the corresponding accessor step leaves the state unchanged. -/
theorem claim_C7 (tm : TaskManager) (now t : Nat)
    (h : (getTask tm tm.inner.current_task).first_time = some t) :
    get_current_running_time now tm = some (now - t) ∧
    step (Op.queryRunningTime now) tm = some tm := by
  have h1 : get_current_running_time now tm = some (now - t) := by
    unfold get_current_running_time
    rw [h]
    rfl
  exact ⟨h1, by simp [step, h1]⟩

/-- Witness for C7 at the concrete reachable state `s2W`, whose current task
was first scheduled at time 1: at `now = 10` the running time is 9. -/
theorem claim_C7_witness :
    get_current_running_time 10 s2W = some 9 := by
  have h := claim_C7 s2W 10 1 (by decide)
  exact h.1

/-- Scenario invariant for the round-robin property: `N` applications, the
current one is `c`, and every other application index is `Ready` (no task
ever exits). -/
def RoundRobinInv (N c : Nat) (tm : TaskManager) : Prop :=
  tm.num_app = N ∧ c < N ∧ tm.inner.current_task = c ∧ N ≤ tm.inner.tasks.length ∧
  ∀ i, i < N → i ≠ c → (getTask tm i).task_status = TaskStatus.Ready

instance (N c : Nat) (tm : TaskManager) : Decidable (RoundRobinInv N c tm) := by
  unfold RoundRobinInv
  infer_instance

/-- One `suspend_current_and_run_next` under the round-robin invariant moves
the current index from `c` to `(c + 1) % N`. -/
theorem yield_step (N c now : Nat) (tm : TaskManager) (h : RoundRobinInv N c tm) :
    ∃ tm', suspend_current_and_run_next now tm = some tm' ∧
      RoundRobinInv N ((c + 1) % N) tm' := by
  obtain ⟨hn, hc, hcur, hlen, hready⟩ := h
  have hN : 0 < N := by omega
  have hclen : tm.inner.current_task < tm.inner.tasks.length := by rw [hcur]; omega
  have hallready : ∀ i, i < N →
      (getTask (mark_current_suspended tm) i).task_status = TaskStatus.Ready := by
    intro i hi
    by_cases hic : i = tm.inner.current_task
    · rw [getTask_mark_suspended, if_pos ⟨hic, hclen⟩]
    · rw [getTask_mark_suspended, if_neg (fun hcc => hic hcc.1)]
      rw [hcur] at hic
      exact hready i hi hic
  have hmodlt : (c + 1) % N < N := Nat.mod_lt (c + 1) hN
  have hnext : find_next_task (mark_current_suspended tm) = some ((c + 1) % N) := by
    rw [find_next_task_eq]
    obtain ⟨m, hm⟩ : ∃ m, N = m + 1 := ⟨N - 1, by omega⟩
    have hcur' : (mark_current_suspended tm).inner.current_task = c := by
      rw [current_mark_suspended]; exact hcur
    have hnum' : (mark_current_suspended tm).num_app = N := by
      rw [num_app_mark_suspended]; exact hn
    unfold scanOrder
    rw [hcur', hnum', hm, List.range'_succ, List.map_cons]
    rw [List.find?_cons_of_pos]
    rw [← hm]
    have := hallready ((c + 1) % N) hmodlt
    simp [readyPred, this]
  refine ⟨dispatch now (mark_current_suspended tm) ((c + 1) % N),
    run_next_task_eq_dispatch now hnext, ?_, hmodlt, rfl, ?_, ?_⟩
  · rw [num_app_dispatch, num_app_mark_suspended]; exact hn
  · rw [length_dispatch, length_mark_suspended]; exact hlen
  · intro i hi hic
    have hframe : getTask (dispatch now (mark_current_suspended tm) ((c + 1) % N)) i =
        getTask (mark_current_suspended tm) i := by
      rw [getTask_dispatch, if_neg (fun hcc => hic hcc.1)]
    rw [hframe]
    exact hallready i hi

/-- Any `k` yields under the round-robin invariant land on `(c + k) % N`. -/
theorem yieldIter_spec (N : Nat) (nows : Nat → Nat) :
    ∀ (k c : Nat) (tm : TaskManager), RoundRobinInv N c tm →
      ∃ tm', yieldIter nows k tm = some tm' ∧ RoundRobinInv N ((c + k) % N) tm' := by
  intro k
  induction k with
  | zero =>
    intro c tm h
    refine ⟨tm, rfl, ?_⟩
    rw [Nat.add_zero, Nat.mod_eq_of_lt h.2.1]
    exact h
  | succ k ih =>
    intro c tm h
    obtain ⟨tm1, hstep, hinv1⟩ := yield_step N c (nows k) tm h
    obtain ⟨tm', hiter, hinv'⟩ := ih ((c + 1) % N) tm1 hinv1
    refine ⟨tm', ?_, ?_⟩
    · show (suspend_current_and_run_next (nows k) tm).bind (yieldIter nows k) = some tm'
      rw [hstep]
      exact hiter
    · have harith : ((c + 1) % N + k) % N = (c + (k + 1)) % N := by
        rw [Nat.mod_add_mod]
        have : c + 1 + k = c + (k + 1) := by omega
        rw [this]
      rw [← harith]
      exact hinv'

/-- C5: with `N` applications all `Ready` except the current `c` and none
ever exiting, `k` consecutive `suspend_current_and_run_next` calls all
succeed and leave the current task at `(c + k) % N` — strict round-robin,
every index once per cycle in increasing order modulo `N`. -/
theorem claim_C5 (N c : Nat) (nows : Nat → Nat) (tm : TaskManager)
    (h : RoundRobinInv N c tm) :
    ∀ k, ∃ tm', yieldIter nows k tm = some tm' ∧
      tm'.inner.current_task = (c + k) % N ∧ RoundRobinInv N ((c + k) % N) tm' := by
  intro k
  obtain ⟨tm', h1, h2⟩ := yieldIter_spec N nows k c tm h
  exact ⟨tm', h1, h2.2.2.1, h2⟩

/-- Concrete state for the round-robin witness: three `Ready` tasks, current
task 0. -/
def sampleC5 : TaskManager :=
  { num_app := 3
    inner :=
      { tasks := [sampleTCB TaskStatus.Running, sampleTCB TaskStatus.Ready,
                  sampleTCB TaskStatus.Ready]
        current_task := 0 } }

/-- Witness for C5: four yields from task 0 of three tasks end at task
`(0 + 4) % 3 = 1`. -/
theorem claim_C5_witness :
    (yieldIter (fun k => k) 4 sampleC5).map (fun s => s.inner.current_task) = some 1 := by
  obtain ⟨tm', h1, h2, _⟩ := claim_C5 3 0 (fun k => k) sampleC5 (by decide) 4
  rw [h1]
  simp [h2]

theorem first_time_mark_suspended (tm : TaskManager) (i : Nat) :
    (getTask (mark_current_suspended tm) i).first_time = (getTask tm i).first_time := by
  rw [getTask_mark_suspended]
  split
  · rename_i hc
    rw [hc.1]
  · rfl

theorem first_time_mark_exited (tm : TaskManager) (i : Nat) :
    (getTask (mark_current_exited tm) i).first_time = (getTask tm i).first_time := by
  rw [getTask_mark_exited]
  split
  · rename_i hc
    rw [hc.1]
  · rfl

theorem dispatch_first_mono (now : Nat) (tm : TaskManager) (next i t : Nat)
    (h : (getTask tm i).first_time = some t) :
    (getTask (dispatch now tm next) i).first_time = some t := by
  rw [getTask_dispatch]
  split
  · rename_i hc
    have h2 : (getTask tm next).first_time = some t := by rw [← hc.1]; exact h
    simp [h2]
  · exact h

theorem dispatch_first_isSome (now : Nat) (tm : TaskManager) (next : Nat)
    (hlen : next < tm.inner.tasks.length) :
    (getTask (dispatch now tm next) next).first_time.isSome := by
  rw [getTask_dispatch, if_pos ⟨rfl, hlen⟩]
  cases hft : (getTask tm next).first_time <;> simp [hft]

theorem dispatch_status_self (now : Nat) (tm : TaskManager) (next : Nat)
    (hlen : next < tm.inner.tasks.length) :
    (getTask (dispatch now tm next) next).task_status = TaskStatus.Running := by
  rw [getTask_dispatch, if_pos ⟨rfl, hlen⟩]

/-- A present first-scheduled timestamp survives any successful operation
with the identical value. -/
theorem step_first_mono {tm s' : TaskManager} {op : Op} (h : step op tm = some s') :
    ∀ i t, (getTask tm i).first_time = some t → (getTask s' i).first_time = some t := by
  intro i t hft
  cases op with
  | suspendAndRunNext now =>
    simp only [step, suspend_current_and_run_next] at h
    cases hf : find_next_task (mark_current_suspended tm) with
    | none => rw [run_next_task, hf] at h; cases h
    | some next =>
      rw [run_next_task_eq_dispatch now hf] at h
      cases h
      refine dispatch_first_mono now _ next i t ?_
      rw [first_time_mark_suspended]
      exact hft
  | exitAndRunNext now =>
    simp only [step, exit_current_and_run_next] at h
    cases hf : find_next_task (mark_current_exited tm) with
    | none => rw [run_next_task, hf] at h; cases h
    | some next =>
      rw [run_next_task_eq_dispatch now hf] at h
      cases h
      refine dispatch_first_mono now _ next i t ?_
      rw [first_time_mark_exited]
      exact hft
  | recordSyscall id => cases h; rw [getTask_syscall_first]; exact hft
  | querySyscallTimes => cases h; exact hft
  | queryStatus => cases h; exact hft
  | queryRunningTime now =>
    simp only [step] at h
    cases hq : get_current_running_time now tm with
    | none => rw [hq] at h; cases h
    | some v => rw [hq] at h; simp at h; rw [← h]; exact hft

theorem execFrom_first_mono :
    ∀ (ops : List Op) {tm s : TaskManager}, execFrom tm ops = some s →
      ∀ i t, (getTask tm i).first_time = some t → (getTask s i).first_time = some t := by
  intro ops
  induction ops with
  | nil => intro tm s h i t hft; cases h; exact hft
  | cons op ops ih =>
    intro tm s h i t hft
    unfold execFrom at h
    cases hst : step op tm with
    | none => rw [hst] at h; cases h
    | some tm1 =>
      rw [hst] at h
      exact ih h i t (step_first_mono hst i t hft)

theorem execFrom_append (l1 l2 : List Op) :
    ∀ tm : TaskManager,
      execFrom tm (l1 ++ l2) = (execFrom tm l1).bind (fun s => execFrom s l2) := by
  induction l1 with
  | nil => intro tm; rfl
  | cons op l1 ih =>
    intro tm
    simp only [List.cons_append, execFrom]
    cases hst : step op tm with
    | none => rfl
    | some tm1 => exact ih tm1

theorem self_first_iff {numApp maxAppNum : Nat} {tm : TaskManager}
    (hInv : StateInv numApp maxAppNum tm) (i : Nat) :
    (getTask tm i).first_time.isSome ↔
      ((getTask tm i).first_time.isSome ∨
        (getTask tm i).task_status = TaskStatus.Running) := by
  constructor
  · exact Or.inl
  · rintro (hh | hh)
    · exact hh
    · exact hInv.running_some i hh

/-- After one successful operation the timestamp of task `i` is present iff
it already was or the task is now the `Running` one. -/
theorem step_first_iff {numApp maxAppNum : Nat} {tm s' : TaskManager} {op : Op}
    (hInv : StateInv numApp maxAppNum tm) (h : step op tm = some s') :
    ∀ i, (getTask s' i).first_time.isSome ↔
      ((getTask tm i).first_time.isSome ∨
        (getTask s' i).task_status = TaskStatus.Running) := by
  intro i
  cases op with
  | suspendAndRunNext now =>
    simp only [step, suspend_current_and_run_next] at h
    cases hf : find_next_task (mark_current_suspended tm) with
    | none => rw [run_next_task, hf] at h; cases h
    | some next =>
      rw [run_next_task_eq_dispatch now hf] at h
      cases h
      have hnl : next < (mark_current_suspended tm).inner.tasks.length := by
        have hlt := (find_next_task_some_facts hf).1
        rw [num_app_mark_suspended, hInv.num_app_eq] at hlt
        rw [length_mark_suspended, hInv.len_eq]
        have := hInv.le_cap
        omega
      by_cases hi : i = next
      · subst hi
        constructor
        · intro _; exact Or.inr (dispatch_status_self now _ i hnl)
        · intro _; exact dispatch_first_isSome now _ i hnl
      · have hfr : getTask (dispatch now (mark_current_suspended tm) next) i =
            getTask (mark_current_suspended tm) i := by
          rw [getTask_dispatch, if_neg (fun hcc => hi hcc.1)]
        rw [hfr, first_time_mark_suspended]
        constructor
        · exact Or.inl
        · rintro (hh | hh)
          · exact hh
          · exact absurd hh (noRunning_mark_suspended hInv i)
  | exitAndRunNext now =>
    simp only [step, exit_current_and_run_next] at h
    cases hf : find_next_task (mark_current_exited tm) with
    | none => rw [run_next_task, hf] at h; cases h
    | some next =>
      rw [run_next_task_eq_dispatch now hf] at h
      cases h
      have hnl : next < (mark_current_exited tm).inner.tasks.length := by
        have hlt := (find_next_task_some_facts hf).1
        rw [num_app_mark_exited, hInv.num_app_eq] at hlt
        rw [length_mark_exited, hInv.len_eq]
        have := hInv.le_cap
        omega
      by_cases hi : i = next
      · subst hi
        constructor
        · intro _; exact Or.inr (dispatch_status_self now _ i hnl)
        · intro _; exact dispatch_first_isSome now _ i hnl
      · have hfr : getTask (dispatch now (mark_current_exited tm) next) i =
            getTask (mark_current_exited tm) i := by
          rw [getTask_dispatch, if_neg (fun hcc => hi hcc.1)]
        rw [hfr, first_time_mark_exited]
        constructor
        · exact Or.inl
        · rintro (hh | hh)
          · exact hh
          · exact absurd hh (noRunning_mark_exited hInv i)
  | recordSyscall id =>
    cases h
    rw [getTask_syscall_first, getTask_syscall_status]
    exact self_first_iff hInv i
  | querySyscallTimes => cases h; exact self_first_iff hInv i
  | queryStatus => cases h; exact self_first_iff hInv i
  | queryRunningTime now =>
    simp only [step] at h
    cases hq : get_current_running_time now tm with
    | none => rw [hq] at h; cases h
    | some v => rw [hq] at h; simp at h; rw [← h]; exact self_first_iff hInv i

theorem everRunning_cons {tm tm1 : TaskManager} {op : Op} {ops : List Op} {i : Nat}
    (hst : step op tm = some tm1) :
    everRunning tm (op :: ops) i ↔
      ((getTask tm i).task_status = TaskStatus.Running ∨ everRunning tm1 ops i) := by
  constructor
  · rintro ⟨k, s', hex, hrun⟩
    cases k with
    | zero =>
      rw [List.take_zero] at hex
      cases hex
      exact Or.inl hrun
    | succ k =>
      rw [List.take_succ_cons] at hex
      unfold execFrom at hex
      rw [hst] at hex
      exact Or.inr ⟨k, s', hex, hrun⟩
  · rintro (hh | ⟨k, s', hex, hrun⟩)
    · exact ⟨0, tm, by rw [List.take_zero]; rfl, hh⟩
    · refine ⟨k + 1, s', ?_, hrun⟩
      rw [List.take_succ_cons]
      unfold execFrom
      rw [hst]
      exact hex

/-- Along a successful execution, the timestamp of task `i` is present in the
final state iff it was present at the start or the task was observed
`Running` somewhere along the execution. -/
theorem execFrom_first_iff {numApp maxAppNum : Nat} :
    ∀ (ops : List Op) {tm s : TaskManager}, StateInv numApp maxAppNum tm →
      execFrom tm ops = some s →
      ∀ i, (getTask s i).first_time.isSome ↔
        ((getTask tm i).first_time.isSome ∨ everRunning tm ops i) := by
  intro ops
  induction ops with
  | nil =>
    intro tm s hInv h i
    cases h
    constructor
    · exact Or.inl
    · rintro (hh | ⟨k, s', hex, hrun⟩)
      · exact hh
      · rw [List.take_nil] at hex
        cases hex
        exact hInv.running_some i hrun
  | cons op ops ih =>
    intro tm s hInv h i
    unfold execFrom at h
    cases hst : step op tm with
    | none => rw [hst] at h; cases h
    | some tm1 =>
      rw [hst] at h
      have hInv1 := stateInv_step hInv hst
      have htm1run : (getTask tm1 i).task_status = TaskStatus.Running →
          everRunning tm1 ops i := by
        intro hr
        exact ⟨0, tm1, by rw [List.take_zero]; rfl, hr⟩
      rw [ih hInv1 h i, step_first_iff hInv hst i, everRunning_cons hst]
      constructor
      · rintro ((ha | hb) | hc)
        · exact Or.inl ha
        · exact Or.inr (Or.inr (htm1run hb))
        · exact Or.inr (Or.inr hc)
      · rintro (ha | hb | hc)
        · exact Or.inl (Or.inl ha)
        · exact Or.inl (Or.inl (hInv.running_some i hb))
        · exact Or.inr hc

/-- C3: starting from boot (`run_first_task` on the freshly constructed
manager) and any successful operation sequence, a task's `first_time` is
present iff the task was observed `Running` at some point of the execution,
and once present at some intermediate state it keeps the identical value in
the final state. -/
theorem claim_C3 (maxAppNum maxSyscallNum numApp : Nat) (cx : Nat → Nat) (now0 : Nat)
    (ops : List Op) (s : TaskManager) (h1 : 1 ≤ numApp) (h2 : numApp ≤ maxAppNum)
    (hexec : execFrom (run_first_task now0 (taskManagerInit maxAppNum maxSyscallNum numApp cx))
      ops = some s) :
    (∀ i, (getTask s i).first_time.isSome ↔
      everRunning (run_first_task now0 (taskManagerInit maxAppNum maxSyscallNum numApp cx))
        ops i) ∧
    (∀ k sk i t,
      execFrom (run_first_task now0 (taskManagerInit maxAppNum maxSyscallNum numApp cx))
        (ops.take k) = some sk →
      (getTask sk i).first_time = some t → (getTask s i).first_time = some t) := by
  have hInv : StateInv numApp maxAppNum
      (run_first_task now0 (taskManagerInit maxAppNum maxSyscallNum numApp cx)) :=
    stateInv_boot maxAppNum maxSyscallNum numApp cx now0 h1 h2
  have hiff := execFrom_first_iff ops hInv hexec
  have h0len : 0 < (taskManagerInit maxAppNum maxSyscallNum numApp cx).inner.tasks.length := by
    rw [length_taskManagerInit]
    omega
  have hboot : ∀ i,
      (getTask (run_first_task now0 (taskManagerInit maxAppNum maxSyscallNum numApp cx))
        i).first_time.isSome →
      everRunning (run_first_task now0 (taskManagerInit maxAppNum maxSyscallNum numApp cx))
        ops i := by
    intro i hi
    by_cases hi0 : i = 0
    · subst hi0
      refine ⟨0, _, by rw [List.take_zero]; rfl, ?_⟩
      rw [getTask_run_first, if_pos ⟨rfl, h0len⟩]
    · exfalso
      rw [getTask_run_first, if_neg (fun hc => hi0 hc.1), getTask_taskManagerInit] at hi
      revert hi
      split
      · simp
      · simp [default]
  refine ⟨?_, ?_⟩
  · intro i
    rw [hiff i]
    constructor
    · rintro (ha | hb)
      · exact hboot i ha
      · exact hb
    · intro hb
      exact Or.inr hb
  · intro k sk i t htake hsk
    have hsplit := execFrom_append (ops.take k) (ops.drop k)
      (run_first_task now0 (taskManagerInit maxAppNum maxSyscallNum numApp cx))
    rw [List.take_append_drop, hexec, htake] at hsplit
    simp only [Option.some_bind] at hsplit
    exact execFrom_first_mono (ops.drop k) hsplit.symm i t hsk

/-- Witness for C3 in the concrete run behind `s2W`: task 0 was first
scheduled at boot time 0, and after the yield its timestamp still reads
`some 0`. -/
theorem claim_C3_witness : (getTask s2W 0).first_time = some 0 := by
  have h := claim_C3 2 1 2 (fun i => i) 0 [Op.suspendAndRunNext 1] s2W
    (by decide) (by decide) (by decide)
  exact h.2 1 s2W 0 0 (by decide) (by decide)
